import Mathlib

/-!
Shallow embedding of `pkg/cmd/docgen/funcs.go`: the documentation-generation
pipeline for SQL builtin functions and operators.  Go maps are embedded as
association lists (one list order per iteration of the map); Go strings are
Lean strings, with the primitive byte operations re-implemented structurally
on `String.data` so that every definition evaluates by kernel reduction.
Go's `sort` package sorts are embedded as insertion sort over the reflexive
closure of the Go comparator; the Go sorts are unstable, but every use in
this file sorts lists whose comparator-equal elements are identical values,
so any comparator-consistent sort produces the same list.
-/

/-- ASCII lowercasing of one character: the effect of Go `strings.ToLower`
on the ASCII catalog names. -/
def lowerChar (c : Char) : Char :=
  if 'A' ≤ c ∧ c ≤ 'Z' then Char.ofNat (c.toNat + 32) else c

/-- Go `strings.ToLower` restricted to ASCII input (funcs.go:172). -/
def toLowerStr (s : String) : String := String.mk (s.data.map lowerChar)

/-- Lexicographic strict comparison of character lists; on UTF-8 data
codepoint order coincides with Go's byte-wise string order. -/
def lexLtChars : List Char → List Char → Bool
  | [], [] => false
  | [], _ :: _ => true
  | _ :: _, [] => false
  | a :: as, b :: bs => if a < b then true else if b < a then false else lexLtChars as bs

/-- Go string comparison `a < b`. -/
def strLtB (a b : String) : Bool := lexLtChars a.data b.data

/-- The reflexive order underlying Go `sort.Strings`. -/
def strLeProp (a b : String) : Prop := strLtB b a = false

instance : DecidableRel strLeProp := fun a b => instDecidableEqBool (strLtB b a) false

/-- Model of Go `sort.Strings` (funcs.go:147,208,211). -/
def sortStrings (l : List String) : List String := l.insertionSort strLeProp

/-- Go `strings.TrimSuffix`. -/
def trimSuffix (s suffix : String) : String :=
  if suffix.data.isSuffixOf s.data then
    String.mk (s.data.take (s.data.length - suffix.data.length))
  else s

/-- The type names recognized by `linkTypeName` (funcs.go:257-258). -/
def recognizedTypeNames : List String :=
  ["int", "decimal", "float", "bool", "date", "timestamp", "interval", "string", "bytes",
   "inet", "uuid", "collatedstring"]

/-- funcs.go:248-262 `linkTypeName`. -/
def linkTypeName (s : String) : String :=
  let s1 := trimSuffix s "\x7b\x7d"
  let name := s1
  let s2 := if s1 = "timestamptz" then "timestamp" else s1
  let s3 := trimSuffix s2 "[]"
  if s3 ∈ recognizedTypeNames then "<a href=\"" ++ s3 ++ ".html\">" ++ name ++ "</a>" else s3

/-- The base name `linkTypeName` matches against the recognized set: the
input with a trailing empty-struct marker stripped, the `timestamptz`
normalization applied, and a trailing array marker stripped. -/
def linkTypeBase (s : String) : String :=
  trimSuffix (if trimSuffix s "\x7b\x7d" = "timestamptz" then "timestamp"
              else trimSuffix s "\x7b\x7d") "[]"

/-- Characters of the punctuation class of `linkRE` (funcs.go:234). -/
def isPunctChar (c : Char) : Bool := c = '.' ∨ c = '[' ∨ c = ']'

/-- Characters of the `[a-z]` class of `linkRE` (funcs.go:234). -/
def isLowerAZ (c : Char) : Bool := 'a' ≤ c ∧ c ≤ 'z'

/-- Splits off the maximal run of characters satisfying `p` from the end of
the list: `l = front ++ run`. -/
def splitTrailing (p : Char → Bool) (l : List Char) : List Char × List Char :=
  ((l.reverse.dropWhile p).reverse, (l.reverse.takeWhile p).reverse)

/-- One token of `linkArguments`: the effect of
`linkRE.ReplaceAllStringFunc` (funcs.go:239-243).  The end-anchored regex
`([a-z]+)([\.\[\]]*)$` matches iff the token, after its maximal trailing run
of punctuation, ends in a lowercase letter; the match is the maximal
trailing lowercase run followed by that punctuation run, and it is replaced
by `linkTypeName` of the lowercase run with the punctuation re-appended. -/
def linkOneToken (cs : List Char) : String :=
  let punctSplit := splitTrailing isPunctChar cs
  let letterSplit := splitTrailing isLowerAZ punctSplit.1
  if letterSplit.2.isEmpty then String.mk cs
  else String.mk letterSplit.1 ++ linkTypeName (String.mk letterSplit.2) ++ String.mk punctSplit.2

/-- Go `strings.Split` on the separator `", "` (funcs.go:237). -/
def splitCommaSpace : List Char → List (List Char)
  | [] => [[]]
  | [c] => [[c]]
  | c1 :: c2 :: rest =>
    if c1 = ',' ∧ c2 = ' ' then [] :: splitCommaSpace rest
    else
      match splitCommaSpace (c2 :: rest) with
      | [] => [[c1]]
      | t :: ts => (c1 :: t) :: ts

/-- Go `strings.Join` with a separator. -/
def joinSep (sep : String) : List String → String
  | [] => ""
  | [x] => x
  | x :: y :: xs => x ++ sep ++ joinSep sep (y :: xs)

/-- funcs.go:236-246 `linkArguments`. -/
def linkArguments (t : String) : String :=
  joinSep ", " ((splitCommaSpace t.data).map linkOneToken)

/-- funcs.go:67-72: one operator signature entry. -/
structure operation where
  left : String
  right : String
  ret : String
  op : String
deriving DecidableEq

/-- funcs.go:74-79: `operation.String`. -/
def opDisplay (o : operation) : String :=
  if o.right = "" then "<code>" ++ o.op ++ "</code>" ++ linkTypeName o.left
  else linkTypeName o.left ++ " <code>" ++ o.op ++ "</code> " ++ linkTypeName o.right

/-- funcs.go:85-99: `operations.Less`. -/
def operationLess (a b : operation) : Bool :=
  if a.right ≠ "" ∧ b.right = "" then false
  else if a.right = "" ∧ b.right ≠ "" then true
  else if a.left ≠ b.left then strLtB a.left b.left
  else if a.right ≠ b.right then strLtB a.right b.right
  else strLtB a.ret b.ret

/-- The reflexive order underlying Go `sort.Sort` of `operations`. -/
def opLe (a b : operation) : Prop := operationLess b a = false

instance : DecidableRel opLe := fun a b => instDecidableEqBool (operationLess b a) false

/-- Model of `sort.Sort(v)` at funcs.go:144. -/
def sortOperations (l : List operation) : List operation := l.insertionSort opLe

/-- Modelled from the spec: `parser.UnaryOp` (the `sql/parser` package is
outside this repository snapshot); a unary-operator overload exposing the
display strings of its operand type and return type. -/
structure UnaryOp where
  Typ : String
  ReturnType : String
deriving DecidableEq

/-- Modelled from the spec: `parser.BinOp`, a binary-operator overload
exposing the display strings of its operand types and return type. -/
structure BinOp where
  LeftType : String
  RightType : String
  ReturnType : String
deriving DecidableEq

/-- Modelled from the spec: `parser.CmpOp`, a comparison-operator overload;
it carries a reported return type, which generateOperators ignores. -/
structure CmpOp where
  LeftType : String
  RightType : String
  ReturnType : String
deriving DecidableEq

/-- Go `m[k] = append(m[k], v)` on an association list whose keys are kept
in first-insertion order. -/
def mapAppend {β : Type} (m : List (String × List β)) (k : String) (v : β) :
    List (String × List β) :=
  match m with
  | [] => [(k, [v])]
  | (k', vs) :: rest => if k' = k then (k', vs ++ [v]) :: rest else (k', vs) :: mapAppend rest k v

/-- Go map read `m[k]` (zero value when the key is absent). -/
def mapGet {β : Type} (m : List (String × List β)) (k : String) : List β :=
  match m with
  | [] => []
  | (k', vs) :: rest => if k' = k then vs else mapGet rest k

/-- The entry built from a unary overload at funcs.go:107-111. -/
def unaryOperation (op : String) (v : UnaryOp) : operation :=
  { left := v.Typ, right := "", ret := v.ReturnType, op := op }

/-- The entry built from a binary overload at funcs.go:120-125. -/
def binOperation (op : String) (v : BinOp) : operation :=
  { left := v.LeftType, right := v.RightType, ret := v.ReturnType, op := op }

/-- The entry built from a comparison overload at funcs.go:134-139: the
return type is the literal `"bool"`, not the overload's reported one. -/
def cmpOperation (op : String) (v : CmpOp) : operation :=
  { left := v.LeftType, right := v.RightType, ret := "bool", op := op }

/-- One catalog loop of generateOperators (funcs.go:103-141): every overload
is appended to the group of its operator symbol. -/
def opsFold {α : Type} (mk : String → α → operation) (catalog : List (String × List α))
    (m : List (String × List operation)) : List (String × List operation) :=
  catalog.foldl (fun m e => e.2.foldl (fun m v => mapAppend m e.1 (mk e.1 v)) m) m

/-- The table rendered for one operator symbol (funcs.go:150-157). -/
def opTable (op : String) (group : List operation) : String :=
  "<table><thead>\n" ++ "<tr><td><code>" ++ op ++ "</code></td><td>Return</td></tr>\n" ++
  "</thead><tbody>\n" ++
  String.join (group.map (fun v =>
    "<tr><td>" ++ opDisplay v ++ "</td><td>" ++ linkTypeName v.ret ++ "</td></tr>\n")) ++
  "</tbody></table>" ++ "\n"

/-- funcs.go:101-160 `generateOperators`, the three operator catalogs passed
explicitly (the Go code reads them from package-level parser variables). -/
def generateOperators (unaryOps : List (String × List UnaryOp))
    (binOps : List (String × List BinOp)) (cmpOps : List (String × List CmpOp)) : String :=
  let ops := opsFold cmpOperation cmpOps (opsFold binOperation binOps
    (opsFold unaryOperation unaryOps []))
  let opstrs := sortStrings (ops.map (fun kv => kv.1))
  String.join (opstrs.map (fun op => opTable op (sortOperations (mapGet ops op))))

/-- Modelled from the spec: `parser.Builtin` (the `sql/parser` package is
outside this repository snapshot), exposing exactly the display strings and
markers generateFunctions reads: `fn.Types.String()`,
`fn.FixedReturnType().String()`, `fn.Category()`, the window-function marker
and the descriptive text. -/
structure Builtin where
  Types : String
  FixedReturnType : String
  Category : String
  WindowFunc : Option Unit
  Info : String
deriving DecidableEq

/-- funcs.go:162-163. -/
def notUsableInfo : String := "Not usable; exposed only for compatibility with PostgreSQL."

/-- The category chosen at funcs.go:186-192. -/
def catOf (categorize : Bool) (fn : Builtin) : String :=
  let cat := fn.FixedReturnType
  let cat := if fn.Category ≠ "" then fn.Category else cat
  if categorize then cat else ""

/-- The row string built at funcs.go:193-202; `render` models
`md.RenderToString`, the external markdown renderer. -/
def rowOf (render : String → String) (name : String) (fn : Builtin) : String :=
  let extra := if fn.Info ≠ "" then "<span class=\"funcdesc\">" ++ render fn.Info ++ "</span>"
               else ""
  "<tr><td><code>" ++ name ++ "(" ++ linkArguments fn.Types ++ ") &rarr; " ++
    linkArguments fn.FixedReturnType ++ "</code></td><td>" ++ extra ++ "</td></tr>"

/-- The (category, row) pairs one catalog entry contributes
(funcs.go:177-204): overloads with the sentinel description are skipped, and
under `categorize` so are window functions. -/
def entryRows (render : String → String) (categorize : Bool) (name : String)
    (fns : List Builtin) : List (String × String) :=
  fns.filterMap (fun fn =>
    if fn.Info = notUsableInfo then none
    else if categorize ∧ fn.WindowFunc.isSome then none
    else some (catOf categorize fn, rowOf render name fn))

/-- Processing of one catalog key (funcs.go:169-205): lowercase the name,
skip it when already seen, otherwise record it and append its rows to the
per-category map. -/
def processEntry (render : String → String) (categorize : Bool)
    (st : List (String × List String) × List String) (e : String × List Builtin) :
    List (String × List String) × List String :=
  let name := toLowerStr e.1
  if name ∈ st.2 then st
  else ((entryRows render categorize name e.2).foldl (fun m p => mapAppend m p.1 p.2) st.1,
        name :: st.2)

/-- The whole catalog loop of generateFunctions (funcs.go:166-205), returning
the per-category row map and the seen set. -/
def collectFunctions (render : String → String) (categorize : Bool)
    (entries : List (String × List Builtin)) :
    List (String × List String) × List String :=
  entries.foldl (processEntry render categorize) ([], [])

/-- The category-order fixup at funcs.go:215-220: the first occurrence of
`"Compatibility"` is moved to the end. -/
def compatSwap (cats : List String) : List String :=
  if "Compatibility" ∈ cats then cats.erase "Compatibility" ++ ["Compatibility"] else cats

/-- The category order emitted by generateFunctions (funcs.go:206-220):
sorted, then `"Compatibility"` moved last. -/
def sortCats (cats : List String) : List String := compatSwap (sortStrings cats)

/-- The emission loop at funcs.go:221-230; each category's rows are the
sorted row list of funcs.go:208. -/
def renderFunctionTables (categorize : Bool) (functions : List (String × List String)) : String :=
  let cats := sortCats (functions.map (fun kv => kv.1))
  String.join (cats.map (fun cat =>
    (if categorize then "### " ++ cat ++ " Functions\n\n" else "") ++
    "<table>\n<thead><tr><th>Function &rarr; Returns</th><th>Description</th></tr></thead>\n" ++
    "<tbody>\n" ++ joinSep "\n" (sortStrings (mapGet functions cat)) ++
    "</tbody>\n</table>\n\n"))

/-- funcs.go:165-232 `generateFunctions`; the catalog map is passed as an
association list in iteration order, and `render` models the external
markdown renderer `md.RenderToString`. -/
def generateFunctions (render : String → String) (entries : List (String × List Builtin))
    (categorize : Bool) : String :=
  renderFunctionTables categorize (collectFunctions render categorize entries).1

/-- The sort key realized by `operations.Less`: arity first (unary, i.e.
empty right operand, sorts before binary), then left, right and return type
spellings. -/
def opKey (o : operation) : Lex (Bool × Lex (String × Lex (String × String))) :=
  toLex (decide (o.right ≠ ""), toLex (o.left, toLex (o.right, o.ret)))

/-- Whether `needle` occurs as a contiguous subsequence of `hay`. -/
def containsSeq (needle : List Char) : List Char → Bool
  | [] => needle.isEmpty
  | c :: rest => needle.isPrefixOf (c :: rest) || containsSeq needle rest

/-- The one-entry catalog of the end-to-end scenario of the spec:
`lower(string) -> string`, no explicit category, no description. -/
def lowerCatalog : List (String × List Builtin) :=
  [("lower", [{ Types := "string", FixedReturnType := "string", Category := "",
                WindowFunc := none, Info := "" }])]

/-- A plain overload used by concrete test catalogs: `(int) -> int`. -/
def fooIntBuiltin : Builtin :=
  { Types := "int", FixedReturnType := "int", Category := "", WindowFunc := none, Info := "" }

/-- A plain overload used by concrete test catalogs: `(int) -> bool`. -/
def fooBoolBuiltin : Builtin :=
  { Types := "int", FixedReturnType := "bool", Category := "", WindowFunc := none, Info := "" }

/-- An overload flagged as a window function, used by concrete test catalogs. -/
def windowedBuiltin : Builtin :=
  { Types := "int", FixedReturnType := "int", Category := "", WindowFunc := some (), Info := "" }

/-- The rows all entries of a catalog contribute, in iteration order. -/
def allRows (render : String → String) (categorize : Bool)
    (entries : List (String × List Builtin)) : List (String × String) :=
  entries.flatMap (fun e => entryRows render categorize (toLowerStr e.1) e.2)

/-! ### The embedded comparators agree with Mathlib's linear order on `String` -/

theorem lexLtChars_iff (a : List Char) :
    ∀ b, lexLtChars a b = true ↔ List.Lex (· < ·) a b := by
  induction a with
  | nil =>
    intro b
    cases b with
    | nil => simp [lexLtChars]
    | cons b bs => simp [lexLtChars]; exact List.Lex.nil
  | cons a as ih =>
    intro b
    cases b with
    | nil =>
      simp only [lexLtChars, Bool.false_eq_true, false_iff]
      exact List.Lex.not_nil_right _ _
    | cons b bs =>
      simp only [lexLtChars]
      split_ifs with h1 h2
      · simp only [true_iff]
        exact List.Lex.rel h1
      · simp only [Bool.false_eq_true, false_iff]
        intro h
        cases h with
        | rel h' => exact h1 h'
        | cons h' => exact lt_irrefl _ h2
      · have hab : a = b := le_antisymm (not_lt.mp h2) (not_lt.mp h1)
        subst hab
        rw [ih bs]
        exact (List.Lex.cons_iff).symm

theorem strLtB_iff (a b : String) : strLtB a b = true ↔ a < b := by
  rw [String.lt_iff_toList_lt]
  exact lexLtChars_iff a.data b.data

theorem strLeProp_iff (a b : String) : strLeProp a b ↔ a ≤ b := by
  unfold strLeProp
  rw [← not_lt, ← strLtB_iff]
  simp

instance : IsTotal String strLeProp :=
  ⟨fun a b => by rw [strLeProp_iff, strLeProp_iff]; exact le_total a b⟩

instance : IsTrans String strLeProp :=
  ⟨fun a b c hab hbc => by
    rw [strLeProp_iff] at *
    exact le_trans hab hbc⟩

instance : IsAntisymm String strLeProp :=
  ⟨fun a b hab hba => by
    rw [strLeProp_iff] at *
    exact le_antisymm hab hba⟩


theorem opKey_lt_iff (a b : operation) : opKey a < opKey b ↔
    (a.right = "" ∧ b.right ≠ "") ∨
    (((a.right = "") ↔ (b.right = "")) ∧
      (a.left < b.left ∨ (a.left = b.left ∧
        (a.right < b.right ∨ (a.right = b.right ∧ a.ret < b.ret))))) := by
  unfold opKey
  simp only [Prod.Lex.lt_iff, Bool.lt_iff, decide_eq_false_iff_not, decide_eq_true_eq,
    decide_eq_decide, not_not, not_iff_not]

theorem operationLess_iff (a b : operation) :
    operationLess a b = true ↔ opKey a < opKey b := by
  rw [opKey_lt_iff]
  unfold operationLess
  rcases eq_or_ne a.right "" with hA | hA <;> rcases eq_or_ne b.right "" with hB | hB
  · rcases eq_or_ne a.left b.left with hL | hL <;>
      simp [hA, hB, hL, strLtB_iff, lt_self_iff_false]
  · simp [hA, hB]
  · simp [hA, hB]
  · rcases eq_or_ne a.left b.left with hL | hL
    · rcases eq_or_ne a.right b.right with hR | hR <;>
        simp [hA, hB, hL, hR, strLtB_iff, lt_self_iff_false]
    · simp [hA, hB, hL, strLtB_iff, lt_self_iff_false]

theorem opKey_le_iff (a b : operation) : opKey a ≤ opKey b ↔
    (a.right = "" ∧ b.right ≠ "") ∨
    (((a.right = "") ↔ (b.right = "")) ∧
      (a.left < b.left ∨ (a.left = b.left ∧
        (a.right < b.right ∨ (a.right = b.right ∧ a.ret ≤ b.ret))))) := by
  unfold opKey
  simp only [Prod.Lex.le_iff, Prod.Lex.lt_iff, Bool.lt_iff, decide_eq_false_iff_not,
    decide_eq_true_eq, decide_eq_decide, not_not, not_iff_not]

theorem opLe_iff (a b : operation) : opLe a b ↔ opKey a ≤ opKey b := by
  unfold opLe
  rw [← not_lt, ← operationLess_iff]
  simp

instance : IsTotal operation opLe :=
  ⟨fun a b => by rw [opLe_iff, opLe_iff]; exact le_total _ _⟩

instance : IsTrans operation opLe :=
  ⟨fun a b c hab hbc => by
    rw [opLe_iff] at *
    exact le_trans hab hbc⟩

/-! ### C4: ordering of each operator symbol's sorted signature collection -/

/-- C4: within one operator symbol's collection, after the sort applied by
generateOperators, every unary entry (empty right-operand spelling) precedes
every binary entry, and entries of equal arity are ordered by left-type,
then right-type, then return-type spelling (ordinal string comparison). -/
theorem generateOperators_sort_order (l : List operation) :
    (sortOperations l).Pairwise (fun a b =>
      (b.right = "" → a.right = "") ∧
      (((a.right = "") ↔ (b.right = "")) →
        (a.left < b.left ∨ (a.left = b.left ∧
          (a.right < b.right ∨ (a.right = b.right ∧ a.ret ≤ b.ret)))))) := by
  have hs : (sortOperations l).Sorted opLe := List.sorted_insertionSort opLe l
  refine hs.imp (fun {a b} h => ?_)
  rw [opLe_iff, opKey_le_iff] at h
  rcases h with ⟨hA, hB⟩ | ⟨hiff, h⟩
  · exact ⟨fun hb => absurd hb hB, fun hif => absurd (hif.mp hA) hB⟩
  · exact ⟨fun hb => hiff.mpr hb, fun _ => h⟩

/-! ### C5, C6: linkTypeName behavior -/

/-- C5: the timestamptz link keeps the requested spelling as text but points
at the timestamp page; an array spelling links to the base page and shows
the array spelling; an unrecognized spelling is returned unchanged. -/
theorem linkTypeName_examples :
    linkTypeName "timestamptz" = "<a href=\"timestamp.html\">timestamptz</a>" ∧
    linkTypeName "int[]" = "<a href=\"int.html\">int[]</a>" ∧
    linkTypeName "widget" = "widget" :=
  ⟨by decide, by decide, by decide⟩

/-- C6 counterexample: an unrecognized spelling carrying an array marker is
not returned unmodified, the trailing marker is stripped. -/
theorem linkTypeName_not_id_on_unrecognized : linkTypeName "widget[]" ≠ "widget[]" := by decide

/-- C6 amended: when the computed base name is not in the recognized set,
linkTypeName returns that base name — the input with trailing empty-struct
and array markers stripped — rather than the input itself. -/
theorem linkTypeName_unrecognized (s : String) (h : linkTypeBase s ∉ recognizedTypeNames) :
    linkTypeName s = linkTypeBase s := by
  unfold linkTypeName linkTypeBase at *
  rw [if_neg h]

theorem linkTypeName_unrecognized_witness :
    linkTypeBase "widget[]" ∉ recognizedTypeNames ∧
      linkTypeName "widget[]" = linkTypeBase "widget[]" :=
  ⟨by decide, linkTypeName_unrecognized "widget[]" (by decide)⟩

/-! ### C7: signature entries constructed by generateOperators -/

/-- C7: comparison overloads produce entries whose return type is the
literal `"bool"` whatever return type the catalog reports (the equations
hold for every CmpOp value); unary overloads set the left and return types
with an empty right operand; binary overloads copy left, right, and return
types from the catalog. -/
theorem operation_construction (s : String) (u : UnaryOp) (b : BinOp) (c : CmpOp) :
    (cmpOperation s c).ret = "bool" ∧ (cmpOperation s c).left = c.LeftType ∧
    (cmpOperation s c).right = c.RightType ∧ (unaryOperation s u).left = u.Typ ∧
    (unaryOperation s u).right = "" ∧ (unaryOperation s u).ret = u.ReturnType ∧
    (binOperation s b).left = b.LeftType ∧ (binOperation s b).right = b.RightType ∧
    (binOperation s b).ret = b.ReturnType :=
  ⟨rfl, rfl, rfl, rfl, rfl, rfl, rfl, rfl, rfl⟩

/-! ### C10: the end-to-end lower(string) scenario -/

set_option maxRecDepth 100000 in
/-- C10 counterexample: the row claimed by the spec spells the arrow as the
literal character, but the generated bytes spell it `&rarr;`; the claimed
row string does not occur in the output at all. -/
theorem lower_row_claimed_absent :
    containsSeq ("<tr><td><code>lower(<a href=\"string.html\">string</a>) → <a href=\"string.html\">string</a></code></td><td></td></tr>").data
      (generateFunctions (fun s => s) lowerCatalog true).data = false := by decide

set_option maxRecDepth 100000 in
/-- C10 amended: the catalog with the single entry `lower : (string) ->
string`, no category and no description, renders (for any markdown
renderer, which is never consulted here) exactly one row, with the arrow
emitted as the entity `&rarr;`, inside the `string` category table. -/
theorem generateFunctions_lower_scenario (render : String → String) :
    generateFunctions render lowerCatalog true =
      "### string Functions\n\n<table>\n<thead><tr><th>Function &rarr; Returns</th><th>Description</th></tr></thead>\n<tbody>\n<tr><td><code>lower(<a href=\"string.html\">string</a>) &rarr; <a href=\"string.html\">string</a></code></td><td></td></tr></tbody>\n</table>\n\n" := by
  rfl

/-! ### C3: category ordering -/

theorem sortStrings_sorted (l : List String) : (sortStrings l).Sorted strLeProp :=
  List.sorted_insertionSort strLeProp l

theorem sortStrings_perm (l : List String) : (sortStrings l).Perm l :=
  List.perm_insertionSort strLeProp l

theorem sortStrings_eq_of_perm {l₁ l₂ : List String} (h : l₁.Perm l₂) :
    sortStrings l₁ = sortStrings l₂ :=
  List.eq_of_perm_of_sorted ((sortStrings_perm l₁).trans (h.trans (sortStrings_perm l₂).symm))
    (sortStrings_sorted l₁) (sortStrings_sorted l₂)

/-- C3: the emitted category order is lexicographic except that
`"Compatibility"`, when present, is moved to the very end. -/
theorem sortCats_spec (cats : List String) (h : cats.Nodup) :
    sortCats cats = sortStrings (cats.filter (fun c => c ≠ "Compatibility")) ++
      (if "Compatibility" ∈ cats then ["Compatibility"] else []) := by
  unfold sortCats compatSwap
  by_cases hc : "Compatibility" ∈ cats
  · rw [if_pos ((sortStrings_perm cats).mem_iff.mpr hc), if_pos hc]
    congr 1
    have hnd : (sortStrings cats).Nodup := (sortStrings_perm cats).nodup_iff.mpr h
    have hpq : List.filter (fun x => x != "Compatibility") (sortStrings cats) =
        List.filter (fun c => decide (c ≠ "Compatibility")) (sortStrings cats) :=
      List.filter_congr (fun a _ => by cases eq_or_ne a "Compatibility" <;> simp [*])
    rw [List.Nodup.erase_eq_filter hnd, hpq]
    apply List.eq_of_perm_of_sorted (r := strLeProp)
    · exact ((sortStrings_perm cats).filter _).trans (sortStrings_perm _).symm
    · exact (sortStrings_sorted cats).filter _
    · exact sortStrings_sorted _
  · have hfilter : List.filter (fun c => decide (c ≠ "Compatibility")) cats = cats :=
      List.filter_eq_self.mpr (fun a ha =>
        decide_eq_true (fun he : a = "Compatibility" => hc (he ▸ ha)))
    rw [if_neg (fun hmem => hc ((sortStrings_perm cats).mem_iff.mp hmem)), if_neg hc,
      List.append_nil]
    show sortStrings cats = sortStrings (List.filter (fun c => decide (c ≠ "Compatibility")) cats)
    rw [hfilter]

theorem sortCats_spec_witness :
    (["Alpha", "Compatibility", "Beta"] : List String).Nodup ∧
      sortCats ["Alpha", "Compatibility", "Beta"] = ["Alpha", "Beta", "Compatibility"] :=
  ⟨by decide, by rw [sortCats_spec _ (by decide)]; decide⟩

theorem entryRows_filter_sentinel (render : String → String) (categorize : Bool) (name : String)
    (fns : List Builtin) :
    entryRows render categorize name (fns.filter (fun fn => fn.Info ≠ notUsableInfo)) =
      entryRows render categorize name fns := by
  simp only [entryRows, List.filterMap_filter]
  apply List.filterMap_congr
  intro fn _
  by_cases h : fn.Info = notUsableInfo
  · simp [h]
  · simp [h]

theorem entryRows_filter_window (render : String → String) (name : String)
    (fns : List Builtin) :
    entryRows render true name (fns.filter (fun fn => fn.WindowFunc.isNone)) =
      entryRows render true name fns := by
  simp only [entryRows, List.filterMap_filter]
  apply List.filterMap_congr
  intro fn _
  cases hw : fn.WindowFunc with
  | none => simp [hw]
  | some u => by_cases h : fn.Info = notUsableInfo <;> simp [hw, h]

theorem processEntry_congr_sentinel (render : String → String) (categorize : Bool)
    (st : List (String × List String) × List String) (e : String × List Builtin) :
    processEntry render categorize st (e.1, e.2.filter (fun fn => fn.Info ≠ notUsableInfo)) =
      processEntry render categorize st e := by
  unfold processEntry
  simp only [entryRows_filter_sentinel]

theorem foldl_processEntry_congr (render : String → String) (categorize : Bool)
    (g : String × List Builtin → String × List Builtin)
    (hg : ∀ st e, processEntry render categorize st (g e) = processEntry render categorize st e) :
    ∀ (entries : List (String × List Builtin)) st,
      List.foldl (processEntry render categorize) st (entries.map g) =
        List.foldl (processEntry render categorize) st entries := by
  intro entries
  induction entries with
  | nil => intro st; rfl
  | cons e t ih => intro st; simp only [List.map_cons, List.foldl_cons, hg, ih]

/-- C8: overloads whose descriptive text is the "not usable" sentinel never
contribute a row: removing them from the catalog leaves the output
unchanged, for any categorize flag, name, and category. -/
theorem generateFunctions_sentinel_filtered (render : String → String)
    (entries : List (String × List Builtin)) (categorize : Bool) :
    generateFunctions render
        (entries.map (fun e => (e.1, e.2.filter (fun fn => fn.Info ≠ notUsableInfo)))) categorize =
      generateFunctions render entries categorize := by
  unfold generateFunctions collectFunctions
  rw [foldl_processEntry_congr render categorize _
    (fun st e => processEntry_congr_sentinel render categorize st e)]

/-- C9: when categorize is true, overloads flagged as window functions are
excluded (removing them from the catalog leaves the output unchanged); when
categorize is false, any overload not carrying the sentinel text — window
flag or not — contributes its row to its entry's row list. -/
theorem generateFunctions_window_flag :
    (∀ (render : String → String) (entries : List (String × List Builtin)),
      generateFunctions render
          (entries.map (fun e => (e.1, e.2.filter (fun fn => fn.WindowFunc.isNone)))) true =
        generateFunctions render entries true) ∧
    (∀ (render : String → String) (name : String) (fns : List Builtin) (fn : Builtin),
      fn ∈ fns → fn.Info ≠ notUsableInfo →
      (catOf false fn, rowOf render name fn) ∈ entryRows render false name fns) := by
  constructor
  · intro render entries
    unfold generateFunctions collectFunctions
    rw [foldl_processEntry_congr render true _ (fun st e => by
      unfold processEntry
      simp only [entryRows_filter_window])]
  · intro render name fns fn hmem hinfo
    unfold entryRows
    refine List.mem_filterMap.mpr ⟨fn, hmem, ?_⟩
    rw [if_neg hinfo, if_neg (by simp)]

theorem processEntry_skip (render : String → String) (categorize : Bool)
    (st : List (String × List String) × List String) (e : String × List Builtin)
    (h : toLowerStr e.1 ∈ st.2) : processEntry render categorize st e = st := by
  unfold processEntry
  rw [if_pos h]

theorem seen_mono (render : String → String) (categorize : Bool)
    (entries : List (String × List Builtin)) :
    ∀ st n, n ∈ st.2 → n ∈ (List.foldl (processEntry render categorize) st entries).2 := by
  induction entries with
  | nil => intro st n h; exact h
  | cons e t ih =>
    intro st n h
    rw [List.foldl_cons]
    apply ih
    by_cases hs : toLowerStr e.1 ∈ st.2
    · rw [processEntry_skip render categorize st e hs]; exact h
    · unfold processEntry
      rw [if_neg hs]
      exact List.mem_cons_of_mem _ h

theorem seen_of_mem (render : String → String) (categorize : Bool)
    (entries : List (String × List Builtin)) :
    ∀ st e, e ∈ entries →
      toLowerStr e.1 ∈ (List.foldl (processEntry render categorize) st entries).2 := by
  induction entries with
  | nil => intro st e h; cases h
  | cons f t ih =>
    intro st e h
    rw [List.foldl_cons]
    rcases List.mem_cons.mp h with rfl | hmem
    · apply seen_mono
      by_cases hs : toLowerStr e.1 ∈ st.2
      · rw [processEntry_skip render categorize st e hs]; exact hs
      · unfold processEntry
        rw [if_neg hs]
        exact List.mem_cons_self _ _
    · exact ih _ _ hmem

/-- C2: a catalog key whose case-folded name already occurred earlier in
iteration order is skipped entirely: deleting it (with all its overloads)
does not change the output. -/
theorem generateFunctions_alias_dedup (render : String → String) (categorize : Bool)
    (pre post : List (String × List Builtin)) (k : String) (fns : List Builtin)
    (h : ∃ e ∈ pre, toLowerStr e.1 = toLowerStr k) :
    generateFunctions render (pre ++ (k, fns) :: post) categorize =
      generateFunctions render (pre ++ post) categorize := by
  unfold generateFunctions collectFunctions
  rw [List.foldl_append, List.foldl_append, List.foldl_cons]
  obtain ⟨e, he, hlow⟩ := h
  have hseen : toLowerStr k ∈ (List.foldl (processEntry render categorize) ([], []) pre).2 :=
    hlow ▸ seen_of_mem render categorize pre ([], []) e he
  rw [processEntry_skip render categorize _ (k, fns) hseen]

theorem generateFunctions_window_flag_witness :
    windowedBuiltin ∈ [windowedBuiltin] ∧ windowedBuiltin.Info ≠ notUsableInfo ∧
      (catOf false windowedBuiltin, rowOf (fun s => s) "rank" windowedBuiltin) ∈
        entryRows (fun s => s) false "rank" [windowedBuiltin] :=
  ⟨by decide, by decide,
    generateFunctions_window_flag.2 (fun s => s) "rank" [windowedBuiltin] windowedBuiltin
      (by decide) (by decide)⟩

theorem generateFunctions_alias_dedup_witness :
    (∃ e ∈ [("Foo", [fooIntBuiltin])], toLowerStr e.1 = toLowerStr "foo") ∧
      generateFunctions (fun s => s)
          ([("Foo", [fooIntBuiltin])] ++ ("foo", [fooBoolBuiltin]) :: []) false =
        generateFunctions (fun s => s) ([("Foo", [fooIntBuiltin])] ++ []) false :=
  ⟨⟨("Foo", [fooIntBuiltin]), by decide, by decide⟩,
    generateFunctions_alias_dedup (fun s => s) false [("Foo", [fooIntBuiltin])] []
      "foo" [fooBoolBuiltin] ⟨("Foo", [fooIntBuiltin]), by decide, by decide⟩⟩

/-! ### C1: determinism across catalog iteration orders -/

theorem mapGet_mapAppend {β : Type} (m : List (String × List β)) (k q : String) (v : β) :
    mapGet (mapAppend m k v) q = mapGet m q ++ (if k = q then [v] else []) := by
  induction m with
  | nil =>
    by_cases h : k = q <;> simp [mapAppend, mapGet, h]
  | cons e rest ih =>
    obtain ⟨k', vs⟩ := e
    by_cases h1 : k' = k
    · subst h1
      by_cases h2 : k' = q
      · subst h2
        simp [mapAppend, mapGet]
      · simp [mapAppend, mapGet, h2]
    · by_cases h2 : k' = q
      · subst h2
        have hkq : ¬ k = k' := fun he => h1 he.symm
        simp [mapAppend, mapGet, h1, hkq]
      · simp [mapAppend, mapGet, h1, h2, ih]

theorem mapGet_foldl_append {β : Type} (pairs : List (String × β)) :
    ∀ (m : List (String × List β)) (q : String),
      mapGet (pairs.foldl (fun m p => mapAppend m p.1 p.2) m) q =
        mapGet m q ++ (pairs.filter (fun p => p.1 = q)).map Prod.snd := by
  induction pairs with
  | nil => intro m q; simp
  | cons p t ih =>
    intro m q
    rw [List.foldl_cons, ih, mapGet_mapAppend, List.filter_cons]
    by_cases h : p.1 = q <;> simp [h]

theorem keys_mapAppend {β : Type} (m : List (String × List β)) (k : String) (v : β) :
    (mapAppend m k v).map Prod.fst =
      if k ∈ m.map Prod.fst then m.map Prod.fst else m.map Prod.fst ++ [k] := by
  induction m with
  | nil => simp [mapAppend]
  | cons e rest ih =>
    obtain ⟨k', vs⟩ := e
    by_cases h1 : k' = k
    · subst h1
      simp [mapAppend]
    · have hne : ¬ k = k' := fun he => h1 he.symm
      simp only [mapAppend, if_neg h1, List.map_cons, List.mem_cons, ih]
      by_cases h2 : k ∈ rest.map Prod.fst <;> simp [h2, hne]

theorem mem_keys_mapAppend {β : Type} (m : List (String × List β)) (k q : String) (v : β) :
    q ∈ (mapAppend m k v).map Prod.fst ↔ q ∈ m.map Prod.fst ∨ q = k := by
  rw [keys_mapAppend]
  by_cases h : k ∈ m.map Prod.fst
  · simp only [if_pos h]
    constructor
    · exact Or.inl
    · rintro (hq | rfl)
      · exact hq
      · exact h
  · simp [if_neg h, or_comm]

theorem nodup_keys_mapAppend {β : Type} (m : List (String × List β)) (k : String) (v : β)
    (h : (m.map Prod.fst).Nodup) : ((mapAppend m k v).map Prod.fst).Nodup := by
  rw [keys_mapAppend]
  by_cases hk : k ∈ m.map Prod.fst
  · rw [if_pos hk]; exact h
  · rw [if_neg hk]
    exact (List.perm_append_singleton k _).nodup_iff.mpr (h.cons hk)

theorem mem_keys_foldl_append {β : Type} (pairs : List (String × β)) :
    ∀ (m : List (String × List β)) (q : String),
      q ∈ ((pairs.foldl (fun m p => mapAppend m p.1 p.2) m).map Prod.fst) ↔
        q ∈ m.map Prod.fst ∨ q ∈ pairs.map Prod.fst := by
  induction pairs with
  | nil => intro m q; simp
  | cons p t ih =>
    intro m q
    rw [List.foldl_cons, ih, mem_keys_mapAppend]
    simp [or_assoc, eq_comm]

theorem nodup_keys_foldl_append {β : Type} (pairs : List (String × β)) :
    ∀ (m : List (String × List β)), (m.map Prod.fst).Nodup →
      (((pairs.foldl (fun m p => mapAppend m p.1 p.2) m)).map Prod.fst).Nodup := by
  induction pairs with
  | nil => intro m h; exact h
  | cons p t ih =>
    intro m h
    rw [List.foldl_cons]
    exact ih _ (nodup_keys_mapAppend m p.1 p.2 h)

theorem collect_fst_eq_foldl (render : String → String) (categorize : Bool) :
    ∀ (entries : List (String × List Builtin)) (st : List (String × List String) × List String),
      (entries.map (fun e => toLowerStr e.1)).Nodup →
      (∀ e ∈ entries, toLowerStr e.1 ∉ st.2) →
      (List.foldl (processEntry render categorize) st entries).1 =
        (allRows render categorize entries).foldl (fun m p => mapAppend m p.1 p.2) st.1 := by
  intro entries
  induction entries with
  | nil => intro st _ _; rfl
  | cons e t ih =>
    intro st hnd hdisj
    rw [List.foldl_cons]
    have hnotseen : toLowerStr e.1 ∉ st.2 := hdisj e (List.mem_cons_self _ _)
    have hstep : processEntry render categorize st e =
        ((entryRows render categorize (toLowerStr e.1) e.2).foldl
          (fun m p => mapAppend m p.1 p.2) st.1, toLowerStr e.1 :: st.2) := by
      unfold processEntry
      rw [if_neg hnotseen]
    rw [hstep, ih _ (by simpa using hnd.of_cons) ?_]
    · show _ = (allRows render categorize (e :: t)).foldl _ st.1
      unfold allRows
      rw [List.flatMap_cons, List.foldl_append]
    · intro f hf
      simp only [List.mem_cons, not_or]
      constructor
      · intro he
        have : toLowerStr e.1 ∈ t.map (fun e => toLowerStr e.1) :=
          he ▸ List.mem_map_of_mem _ hf
        exact (List.nodup_cons.mp (by simpa using hnd)).1 this
      · exact hdisj f (List.mem_cons_of_mem _ hf)

theorem renderFunctionTables_congr (categorize : Bool)
    (m₁ m₂ : List (String × List String))
    (hkeys : sortCats (m₁.map (fun kv => kv.1)) = sortCats (m₂.map (fun kv => kv.1)))
    (hget : ∀ q, sortStrings (mapGet m₁ q) = sortStrings (mapGet m₂ q)) :
    renderFunctionTables categorize m₁ = renderFunctionTables categorize m₂ := by
  unfold renderFunctionTables
  dsimp only
  rw [hkeys]
  congr 1
  apply List.map_congr_left
  intro cat _
  rw [hget cat]

theorem generateFunctions_perm_invariant (render : String → String) (categorize : Bool)
    (l₁ l₂ : List (String × List Builtin)) (hperm : l₁.Perm l₂)
    (hnd : (l₁.map (fun e => toLowerStr e.1)).Nodup) :
    generateFunctions render l₁ categorize = generateFunctions render l₂ categorize := by
  have hnd₂ : (l₂.map (fun e => toLowerStr e.1)).Nodup := ((hperm.map _).nodup_iff).mp hnd
  have hrows : (allRows render categorize l₁).Perm (allRows render categorize l₂) :=
    hperm.flatMap_right _
  have h₁ := collect_fst_eq_foldl render categorize l₁ ([], []) hnd (by intro e _; simp)
  have h₂ := collect_fst_eq_foldl render categorize l₂ ([], []) hnd₂ (by intro e _; simp)
  unfold generateFunctions
  unfold collectFunctions at h₁ h₂
  rw [show (collectFunctions render categorize l₁).1 =
      (allRows render categorize l₁).foldl (fun m p => mapAppend m p.1 p.2) [] from h₁,
    show (collectFunctions render categorize l₂).1 =
      (allRows render categorize l₂).foldl (fun m p => mapAppend m p.1 p.2) [] from h₂]
  apply renderFunctionTables_congr
  · unfold sortCats
    rw [sortStrings_eq_of_perm]
    apply (List.perm_ext_iff_of_nodup ?_ ?_).mpr
    · intro q
      rw [mem_keys_foldl_append, mem_keys_foldl_append]
      simp only [List.map_nil, List.not_mem_nil, false_or]
      exact (hrows.map _).mem_iff
    · exact nodup_keys_foldl_append _ _ (by simp)
    · exact nodup_keys_foldl_append _ _ (by simp)
  · intro q
    apply sortStrings_eq_of_perm
    rw [mapGet_foldl_append, mapGet_foldl_append]
    simp only [mapGet, List.nil_append]
    exact ((hrows.filter _).map _)

theorem mapGet_opsInner {α : Type} (mk : String → α → operation) (k q : String) :
    ∀ (vs : List α) (m : List (String × List operation)),
      mapGet (vs.foldl (fun m v => mapAppend m k (mk k v)) m) q =
        mapGet m q ++ (if k = q then vs.map (mk k) else []) := by
  intro vs
  induction vs with
  | nil => intro m; by_cases h : k = q <;> simp [h]
  | cons v t ih =>
    intro m
    rw [List.foldl_cons, ih, mapGet_mapAppend]
    by_cases h : k = q <;> simp [h]

theorem mapGet_opsFold {α : Type} (mk : String → α → operation) :
    ∀ (catalog : List (String × List α)) (m : List (String × List operation)) (q : String),
      mapGet (opsFold mk catalog m) q =
        mapGet m q ++ (catalog.filter (fun e => e.1 = q)).flatMap (fun e => e.2.map (mk e.1)) := by
  intro catalog
  induction catalog with
  | nil => intro m q; simp [opsFold]
  | cons e t ih =>
    intro m q
    show mapGet (opsFold mk t (e.2.foldl (fun m v => mapAppend m e.1 (mk e.1 v)) m)) q = _
    rw [ih, mapGet_opsInner, List.filter_cons]
    by_cases h : e.1 = q <;> simp [h]

theorem mem_keys_opsInner {α : Type} (mk : String → α → operation) (k q : String) :
    ∀ (vs : List α) (m : List (String × List operation)),
      q ∈ ((vs.foldl (fun m v => mapAppend m k (mk k v)) m).map Prod.fst) ↔
        q ∈ m.map Prod.fst ∨ (k = q ∧ vs ≠ []) := by
  intro vs
  induction vs with
  | nil => intro m; simp
  | cons v t ih =>
    intro m
    rw [List.foldl_cons, ih, mem_keys_mapAppend]
    by_cases h : k = q <;> simp [h, eq_comm]

theorem mem_keys_opsFold {α : Type} (mk : String → α → operation) :
    ∀ (catalog : List (String × List α)) (m : List (String × List operation)) (q : String),
      q ∈ ((opsFold mk catalog m).map Prod.fst) ↔
        q ∈ m.map Prod.fst ∨ ∃ e ∈ catalog, e.1 = q ∧ e.2 ≠ [] := by
  intro catalog
  induction catalog with
  | nil => intro m q; simp [opsFold]
  | cons e t ih =>
    intro m q
    show q ∈ ((opsFold mk t (e.2.foldl (fun m v => mapAppend m e.1 (mk e.1 v)) m)).map Prod.fst) ↔ _
    rw [ih, mem_keys_opsInner]
    simp only [List.mem_cons]
    constructor
    · rintro ((hm | ⟨hk, hv⟩) | ⟨f, hf, hfq, hfv⟩)
      · exact Or.inl hm
      · exact Or.inr ⟨e, Or.inl rfl, hk, hv⟩
      · exact Or.inr ⟨f, Or.inr hf, hfq, hfv⟩
    · rintro (hm | ⟨f, (rfl | hf), hfq, hfv⟩)
      · exact Or.inl (Or.inl hm)
      · exact Or.inl (Or.inr ⟨hfq, hfv⟩)
      · exact Or.inr ⟨f, hf, hfq, hfv⟩

theorem nodup_keys_opsInner {α : Type} (mk : String → α → operation) (k : String) :
    ∀ (vs : List α) (m : List (String × List operation)),
      (m.map Prod.fst).Nodup →
      ((vs.foldl (fun m v => mapAppend m k (mk k v)) m).map Prod.fst).Nodup := by
  intro vs
  induction vs with
  | nil => intro m h; exact h
  | cons v t ih =>
    intro m h
    rw [List.foldl_cons]
    exact ih _ (nodup_keys_mapAppend m k (mk k v) h)

theorem nodup_keys_opsFold {α : Type} (mk : String → α → operation) :
    ∀ (catalog : List (String × List α)) (m : List (String × List operation)),
      (m.map Prod.fst).Nodup → ((opsFold mk catalog m).map Prod.fst).Nodup := by
  intro catalog
  induction catalog with
  | nil => intro m h; exact h
  | cons e t ih =>
    intro m h
    show ((opsFold mk t (e.2.foldl (fun m v => mapAppend m e.1 (mk e.1 v)) m)).map Prod.fst).Nodup
    exact ih _ (nodup_keys_opsInner mk e.1 e.2 m h)

theorem filter_key_length_le_one {α : Type} (q : String) :
    ∀ (catalog : List (String × List α)), (catalog.map Prod.fst).Nodup →
      (catalog.filter (fun e => e.1 = q)).length ≤ 1 := by
  intro catalog
  induction catalog with
  | nil => intro _; simp
  | cons e t ih =>
    intro h
    rw [List.filter_cons]
    rw [List.map_cons, List.nodup_cons] at h
    obtain ⟨hnotin, hnd⟩ := h
    by_cases he : e.1 = q
    · rw [if_pos (by simp [he])]
      have ht : t.filter (fun e => e.1 = q) = [] := by
        rw [List.filter_eq_nil_iff]
        intro f hf hfq
        exact hnotin (by
          have : f.1 = e.1 := by
            rw [he]
            simpa using hfq
          exact this ▸ List.mem_map_of_mem Prod.fst hf)
      rw [ht]
      simp
    · rw [if_neg (by simp [he])]
      exact ih hnd

theorem filter_eq_of_perm_of_short {α : Type} {l₁ l₂ : List α} (p : α → Bool)
    (hperm : l₁.Perm l₂) (hlen : (l₁.filter p).length ≤ 1) :
    l₁.filter p = l₂.filter p := by
  have hp : (l₁.filter p).Perm (l₂.filter p) := hperm.filter p
  rcases hfl : l₁.filter p with _ | ⟨a, t⟩
  · rw [hfl] at hp
    exact (hp.symm.eq_nil).symm
  · rcases t with _ | ⟨b, t2⟩
    · rw [hfl] at hp
      exact (List.perm_singleton.mp hp.symm).symm
    · rw [hfl] at hlen
      simp at hlen

theorem generateOperators_perm_invariant
    (u₁ u₂ : List (String × List UnaryOp)) (b₁ b₂ : List (String × List BinOp))
    (c₁ c₂ : List (String × List CmpOp))
    (hu : u₁.Perm u₂) (hb : b₁.Perm b₂) (hc : c₁.Perm c₂)
    (hnu : (u₁.map Prod.fst).Nodup) (hnb : (b₁.map Prod.fst).Nodup)
    (hnc : (c₁.map Prod.fst).Nodup) :
    generateOperators u₁ b₁ c₁ = generateOperators u₂ b₂ c₂ := by
  have hget : ∀ q,
      mapGet (opsFold cmpOperation c₁ (opsFold binOperation b₁ (opsFold unaryOperation u₁ []))) q =
      mapGet (opsFold cmpOperation c₂ (opsFold binOperation b₂ (opsFold unaryOperation u₂ []))) q := by
    intro q
    rw [mapGet_opsFold, mapGet_opsFold, mapGet_opsFold, mapGet_opsFold, mapGet_opsFold,
      mapGet_opsFold]
    rw [filter_eq_of_perm_of_short _ hu (filter_key_length_le_one q u₁ hnu),
      filter_eq_of_perm_of_short _ hb (filter_key_length_le_one q b₁ hnb),
      filter_eq_of_perm_of_short _ hc (filter_key_length_le_one q c₁ hnc)]
  have hmem : ∀ q,
      q ∈ ((opsFold cmpOperation c₁ (opsFold binOperation b₁ (opsFold unaryOperation u₁ []))).map Prod.fst) ↔
      q ∈ ((opsFold cmpOperation c₂ (opsFold binOperation b₂ (opsFold unaryOperation u₂ []))).map Prod.fst) := by
    intro q
    rw [mem_keys_opsFold, mem_keys_opsFold, mem_keys_opsFold, mem_keys_opsFold,
      mem_keys_opsFold, mem_keys_opsFold]
    simp only [List.map_nil, List.not_mem_nil, false_or, hu.mem_iff, hb.mem_iff, hc.mem_iff]
  have hnd₁ : (((opsFold cmpOperation c₁ (opsFold binOperation b₁ (opsFold unaryOperation u₁ []))).map Prod.fst)).Nodup :=
    nodup_keys_opsFold _ _ _ (nodup_keys_opsFold _ _ _ (nodup_keys_opsFold _ _ _ (by simp)))
  have hnd₂ : (((opsFold cmpOperation c₂ (opsFold binOperation b₂ (opsFold unaryOperation u₂ []))).map Prod.fst)).Nodup :=
    nodup_keys_opsFold _ _ _ (nodup_keys_opsFold _ _ _ (nodup_keys_opsFold _ _ _ (by simp)))
  have hkeys := (List.perm_ext_iff_of_nodup hnd₁ hnd₂).mpr hmem
  unfold generateOperators
  dsimp only
  rw [sortStrings_eq_of_perm hkeys]
  congr 1
  apply List.map_congr_left
  intro op _
  rw [hget op]

/-- C1 amended: output bytes do not depend on the catalog maps' iteration
order — two invocations over the same catalogs produce byte-identical
output — provided the function catalog has no two distinct keys that are
equal after case-folding; the operator pipeline needs only its catalogs'
keys to be distinct, which is inherent to a map. -/
theorem generate_deterministic_up_to_iteration_order :
    (∀ (render : String → String) (categorize : Bool)
        (l₁ l₂ : List (String × List Builtin)), l₁.Perm l₂ →
        (l₁.map (fun e => toLowerStr e.1)).Nodup →
        generateFunctions render l₁ categorize = generateFunctions render l₂ categorize) ∧
    (∀ (u₁ u₂ : List (String × List UnaryOp)) (b₁ b₂ : List (String × List BinOp))
        (c₁ c₂ : List (String × List CmpOp)),
        u₁.Perm u₂ → b₁.Perm b₂ → c₁.Perm c₂ →
        (u₁.map Prod.fst).Nodup → (b₁.map Prod.fst).Nodup → (c₁.map Prod.fst).Nodup →
        generateOperators u₁ b₁ c₁ = generateOperators u₂ b₂ c₂) :=
  ⟨fun render categorize l₁ l₂ hp hnd =>
      generateFunctions_perm_invariant render categorize l₁ l₂ hp hnd,
    fun u₁ u₂ b₁ b₂ c₁ c₂ hu hb hc hnu hnb hnc =>
      generateOperators_perm_invariant u₁ u₂ b₁ b₂ c₁ c₂ hu hb hc hnu hnb hnc⟩

set_option maxRecDepth 100000 in
/-- C1 counterexample: two iteration orders of the same function-catalog map
(the same key/overload pairs, permuted) yield different output bytes when
two distinct keys case-fold to the same name, because whichever variant is
iterated first wins the dedup. -/
theorem generateFunctions_iteration_order_sensitive :
    ([("Foo", [fooIntBuiltin]), ("foo", [fooBoolBuiltin])] :
        List (String × List Builtin)).Perm
      [("foo", [fooBoolBuiltin]), ("Foo", [fooIntBuiltin])] ∧
    generateFunctions (fun s => s) [("Foo", [fooIntBuiltin]), ("foo", [fooBoolBuiltin])] false ≠
      generateFunctions (fun s => s) [("foo", [fooBoolBuiltin]), ("Foo", [fooIntBuiltin])] false :=
  ⟨List.Perm.swap _ _ _, by decide⟩

set_option maxRecDepth 100000 in
theorem generate_deterministic_witness :
    (([("abs", [fooIntBuiltin]), ("sign", [fooBoolBuiltin])] :
        List (String × List Builtin)).Perm
      [("sign", [fooBoolBuiltin]), ("abs", [fooIntBuiltin])]) ∧
    (([("abs", [fooIntBuiltin]), ("sign", [fooBoolBuiltin])].map
        (fun e => toLowerStr e.1)).Nodup) ∧
    generateFunctions (fun s => s) [("abs", [fooIntBuiltin]), ("sign", [fooBoolBuiltin])] true =
      generateFunctions (fun s => s) [("sign", [fooBoolBuiltin]), ("abs", [fooIntBuiltin])] true ∧
    generateOperators [("-", [⟨"int", "int"⟩]), ("~", [⟨"int", "int"⟩])]
        [("-", [⟨"int", "int", "int"⟩])] [("<", [⟨"int", "int", "bool"⟩])] =
      generateOperators [("~", [⟨"int", "int"⟩]), ("-", [⟨"int", "int"⟩])]
        [("-", [⟨"int", "int", "int"⟩])] [("<", [⟨"int", "int", "bool"⟩])] :=
  ⟨List.Perm.swap _ _ _, by decide,
    generate_deterministic_up_to_iteration_order.1 (fun s => s) true _ _
      (List.Perm.swap _ _ _) (by decide),
    generate_deterministic_up_to_iteration_order.2 _ _ _ _ _ _
      (List.Perm.swap _ _ _) (List.Perm.refl _) (List.Perm.refl _)
      (by decide) (by decide) (by decide)⟩
